import Mathlib

/-
Verification of the hedge local-operator subsystem
(src/hedge/discretization/local.py, src/src/python/cuda/fluxlocal.py,
src/src/python/cuda/fluxlocal_alt.py).

Matrices and scalar arithmetic are embedded over the rationals; Python
floating-point values appear in this development as exact rationals, so
properties proved here are properties of the control and data flow of the
source, with float rounding abstracted away.  External values that the
source obtains from modules absent from src (Legendre-Gauss-Lobatto
points, the TriangleWarper displacement, the hedge.mesh.element geometry
tables) are abstracted as parameters or, where the spec pins them down,
modelled from the spec and documented at the definition.
-/

-- {{{ Python-semantics helpers

/-- Python true division: raises ZeroDivisionError when the divisor is zero,
    modelled as returning none. -/
def pydiv (a b : ℚ) : Option ℚ :=
  if b = 0 then none else some (a / b)

/-- Python builtin max over a nonempty sequence; none on an empty one
    (where Python raises ValueError). -/
def pymax : List ℚ → Option ℚ
  | [] => none
  | x :: xs => some (xs.foldl max x)

/-- Python list subscription with an integer index: non-negative indices
    count from the front, negative indices from the back, and anything out
    of range raises IndexError (modelled as none). -/
def pylist_get (l : List ℚ) (i : ℤ) : Option ℚ :=
  if 0 ≤ i then l.get? i.toNat
  else if 0 ≤ i + l.length then l.get? (i + l.length).toNat else none

/-- Evaluate an Option-producing function across a list, failing as soon as
    one element fails; models a Python comprehension whose body may raise. -/
def option_map_list (f : α → Option β) : List α → Option (List β)
  | [] => some []
  | a :: rest =>
    match f a, option_map_list f rest with
    | some b, some bs => some (b :: bs)
    | _, _ => none

/-- Lookup in the dict built by enumerate-style insertion
    dict((x, i) for i, x in enumerate(l)): a later duplicate key overwrites
    an earlier one, so the lookup returns the greatest matching index.
    The parameter base is the index of the head of the remaining list. -/
def enum_dict_get [DecidableEq α] (base : ℕ) : List α → α → Option ℕ
  | [], _ => none
  | x :: xs, v =>
    match enum_dict_get (base + 1) xs v with
    | some j => some j
    | none => if x = v then some base else none

-- }}}

-- {{{ pytools.generate_nonnegative_integer_tuples_summing_to_at_most

/-- All length-d tuples of non-negative integers with sum at most n, as
    produced by pytools.generate_nonnegative_integer_tuples_summing_to_at_most
    (an external dependency not under src).  Only the membership and the
    length of this enumeration are relied on below, not its exact order. -/
def gnitstam : ℕ → ℕ → List (List ℕ)
  | _, 0 => [[]]
  | n, d + 1 =>
    (List.range (n + 1)).foldr
      (fun i acc => ((gnitstam (n - i) d).map fun rest => i :: rest) ++ acc) []

-- }}}

-- {{{ matrix bundle (LocalDiscretization / OrthonormalLocalDiscretization)

/-- The memoized per-element data that the matrix accessors of
    LocalDiscretization consume.  Every supported reference element
    (interval, triangle or tetrahedron, at any order) determines one value
    of this structure: node_count many nodes, face_count faces with
    face_node_count nodes each, the Vandermonde matrix of the basis at the
    nodes, the face mass matrix (of width fmm_width), and for each face the
    list of volume node indices lying on it. -/
structure LDisData where
  node_count : ℕ
  face_count : ℕ
  face_node_count : ℕ
  fmm_width : ℕ
  vandermonde : Matrix (Fin node_count) (Fin node_count) ℚ
  face_mass_matrix : Matrix (Fin face_node_count) (Fin fmm_width) ℚ
  face_indices : Fin face_count → Fin face_node_count → Fin node_count

/-- LocalDiscretization._assemble_multi_face_mass_matrix: scatter the face
    mass matrix into a node_count x (face_count * fmm_width) zero matrix,
    writing row r of the face mass matrix into volume row face_indices(f)(r)
    of column block f.  Mirrors the numpy fancy-index row assignment, whose
    last write wins when a face index list repeats an index. -/
def assemble_multi_face_mass_matrix (d : LDisData) :
    Matrix (Fin d.node_count) (Fin (d.face_count * d.fmm_width)) ℚ :=
  Matrix.of fun i j =>
    have hw : 0 < d.fmm_width := by
      rcases Nat.eq_zero_or_pos d.fmm_width with h | h
      · exact absurd j.isLt (by simp [h])
      · exact h
    let i_face : Fin d.face_count :=
      ⟨j.val / d.fmm_width, (Nat.div_lt_iff_lt_mul hw).mpr j.isLt⟩
    let col : Fin d.fmm_width := ⟨j.val % d.fmm_width, Nat.mod_lt _ hw⟩
    match ((List.finRange d.face_node_count).filter
        fun r => d.face_indices i_face r = i).getLast? with
    | some r => d.face_mass_matrix r col
    | none => 0

/-- LocalDiscretization.multi_face_mass_matrix. -/
def multi_face_mass_matrix (d : LDisData) :
    Matrix (Fin d.node_count) (Fin (d.face_count * d.fmm_width)) ℚ :=
  assemble_multi_face_mass_matrix d

/-- OrthonormalLocalDiscretization.inverse_mass_matrix: V * V transpose. -/
def inverse_mass_matrix (d : LDisData) :
    Matrix (Fin d.node_count) (Fin d.node_count) ℚ :=
  d.vandermonde * d.vandermonde.transpose

/-- LocalDiscretization.lifting_matrix: the dot product of the inverse mass
    matrix with the multi-face mass matrix. -/
def lifting_matrix (d : LDisData) :
    Matrix (Fin d.node_count) (Fin (d.face_count * d.fmm_width)) ℚ :=
  inverse_mass_matrix d * multi_face_mass_matrix d

-- }}}

-- {{{ CUDA kernel generators (fluxlocal.py and fluxlocal_alt.py)

/-- The two forms the generated kernels use for the factor applied to the
    accumulated result before it is stored: a tex1Dfetch from the
    inverse_jacobians texture, or the literal constant 1. -/
inductive InvJacMultiplier where
  | texInverseJacobians : InvJacMultiplier
  | constOne : InvJacMultiplier
deriving DecidableEq

/-- Value of the multiplier expression, given the per-element inverse
    Jacobian that the texture fetch would return. -/
def InvJacMultiplier.value (m : InvJacMultiplier) (inv_jacobian : ℚ) : ℚ :=
  match m with
  | .texInverseJacobians => inv_jacobian
  | .constOne => 1

/-- FluxLocalKernel.gpu_liftmat (fluxlocal.py): the matrix chosen for upload,
    before the vstacking and padding steps (which do not depend on is_lift). -/
def fluxlocal_gpu_liftmat_mat (is_lift : Bool) (d : LDisData) :
    Matrix (Fin d.node_count) (Fin (d.face_count * d.fmm_width)) ℚ :=
  if is_lift then lifting_matrix d else multi_face_mass_matrix d

/-- FluxLocalKernel.get_kernel (fluxlocal.py): the inv_jac_multiplier
    expression emitted into the generated kernel source. -/
def fluxlocal_inv_jac_multiplier (is_lift : Bool) : InvJacMultiplier :=
  if is_lift then .texInverseJacobians else .constOne

/-- The value the generated fluxlocal.py kernel stores for one degree of
    freedom: the accumulated matrix-vector product result times the
    inv_jac_multiplier expression. -/
def fluxlocal_stored_flux (is_lift : Bool) (result inv_jacobian : ℚ) : ℚ :=
  result * (fluxlocal_inv_jac_multiplier is_lift).value inv_jacobian

/-- SMemFieldFluxLocalKernel.gpu_lift_mat (fluxlocal_alt.py): the matrix
    bound to the lift_mat_tex texture. -/
def fluxlocal_alt_gpu_lift_mat (is_lift : Bool) (d : LDisData) :
    Matrix (Fin d.node_count) (Fin (d.face_count * d.fmm_width)) ℚ :=
  if is_lift then lifting_matrix d else multi_face_mass_matrix d

/-- SMemFieldFluxLocalKernel.get_kernel (fluxlocal_alt.py): the
    inv_jac_multiplier expression emitted into the generated kernel source. -/
def fluxlocal_alt_inv_jac_multiplier (is_lift : Bool) : InvJacMultiplier :=
  if is_lift then .texInverseJacobians else .constOne

/-- The value the generated fluxlocal_alt.py kernel stores for one degree of
    freedom. -/
def fluxlocal_alt_stored_flux (is_lift : Bool) (result inv_jacobian : ℚ) : ℚ :=
  result * (fluxlocal_alt_inv_jac_multiplier is_lift).value inv_jacobian

-- }}}

-- {{{ tetrahedron warp blend clamp (TetrahedronDiscretization.equilateral_nodes)

/-- The clamp tolerance 1e-12 of the 3-D warp construction. -/
def clamp_eps : ℚ := 1 / 10 ^ 12

/-- The denominator loop of TetrahedronDiscretization.equilateral_nodes:
    for each face barycentric coordinate in turn, divide the running blend by
    denom when its absolute value exceeds 1e-12; at the first coordinate whose
    denominator is within 1e-12 of zero, set the blend to 0.5 and stop. -/
def tet_blend_loop (blend : ℚ) (opp_bp : ℚ) : List ℚ → ℚ
  | [] => blend
  | bp_i :: rest =>
    if clamp_eps < |bp_i + (1 / 2) * opp_bp| then
      tet_blend_loop (blend / (bp_i + (1 / 2) * opp_bp)) opp_bp rest
    else 1 / 2

/-- The per-node, per-face blend factor of
    TetrahedronDiscretization.equilateral_nodes: the product of the three face
    barycentric coordinates times (1 + alpha * bp_opp) squared, then passed
    through the denominator loop over those same three coordinates. -/
def tet_face_blend (alpha : ℚ) (face_bp : List ℚ) (opp_bp : ℚ) : ℚ :=
  tet_blend_loop (face_bp.prod * (1 + alpha * opp_bp) ^ 2) opp_bp face_bp

-- }}}

-- {{{ alpha tables (TriangleDiscretization / TetrahedronDiscretization)

/-- The alpha_opt table of TriangleDiscretization.equilateral_nodes
    (15 entries). -/
def triangle_alpha_opt : List ℚ :=
  [0.0000, 0.0000, 1.4152, 0.1001, 0.2751, 0.9800, 1.0999,
   1.2832, 1.3648, 1.4773, 1.4959, 1.5743, 1.5770, 1.6223, 1.6258]

/-- The alpha_opt table of TetrahedronDiscretization.equilateral_nodes
    (15 entries). -/
def tetrahedron_alpha_opt : List ℚ :=
  [0, 0, 0, 0.1002, 1.1332, 1.5608, 1.3413, 1.2577, 1.1603,
   1.10153, 0.6080, 0.4523, 0.8856, 0.8717, 0.9655]

/-- TriangleDiscretization.equilateral_nodes alpha selection: look up
    alpha_opt[order - 1] with Python index semantics, falling back to 5/3 on
    IndexError.  For order 0, Python index -1 yields the last table entry. -/
def triangle_alpha (order : ℕ) : ℚ :=
  match pylist_get triangle_alpha_opt ((order : ℤ) - 1) with
  | some a => a
  | none => 5 / 3

/-- TetrahedronDiscretization.equilateral_nodes alpha selection: use
    alpha_opt[order - 1] if order - 1 < len(alpha_opt), else alpha = 1.
    Inside the branch the Python subscription always succeeds (index between
    -1 and 14), so the getD default is never consulted. -/
def tetrahedron_alpha (order : ℕ) : ℚ :=
  if (order : ℤ) - 1 < (tetrahedron_alpha_opt.length : ℤ) then
    (pylist_get tetrahedron_alpha_opt ((order : ℤ) - 1)).getD 0
  else 1

-- }}}

-- {{{ node counts and node lists

/-- PkSimplexDiscretization.node_count: the product of order+1+i for
    i < dimensions, divided by dimensions factorial.  The Python source uses
    true division followed by int(); the quotient is exact for the supported
    dimensions, so Nat division coincides with it. -/
def node_count (dimensions order : ℕ) : ℕ :=
  ((List.range dimensions).map fun i => order + 1 + i).prod / dimensions.factorial

/-- PkSimplexDiscretization.equidistant_barycentric_nodes: for each node
    tuple, divide each entry by the order (Python raises ZeroDivisionError at
    order 0, hence the Option) and prepend one minus the sum. -/
def equidistant_barycentric_nodes (dimensions order : ℕ) : Option (List (List ℚ)) :=
  option_map_list
    (fun (indices : List ℕ) =>
      (option_map_list (fun (i : ℕ) => pydiv (i : ℚ) (order : ℚ)) indices).map
        fun divided => (1 - divided.sum) :: divided)
    (gnitstam order dimensions)

/-- Modelled from the spec: hedge.quadrature.legendre_gauss_lobatto_points is
    not under src.  For 1-D, the spec replaces equidistant nodes with the
    Legendre-Gauss-Lobatto points of the given order, of which there are
    N + 1.  Only the count of points is relied on below; the point values
    (irrational roots) are left as placeholders. -/
def legendre_gauss_lobatto_points (N : ℕ) : List ℚ :=
  (List.range (N + 1)).map fun _ => 0

/-- IntervalDiscretization.nodes: the single node 0.5 at order 0, otherwise
    the Legendre-Gauss-Lobatto points of the order. -/
def interval_nodes (order : ℕ) : List (List ℚ) :=
  if order = 0 then [[1 / 2]]
  else (legendre_gauss_lobatto_points order).map fun x => [x]

/-- IntervalDiscretization.unit_nodes is an alias of nodes. -/
def interval_unit_nodes (order : ℕ) : List (List ℚ) :=
  interval_nodes order

/-- TriangleDiscretization.equilateral_nodes: one output node per
    equidistant barycentric node, namely barycentric_to_equilateral(bp) plus
    the TriangleWarper displacement warp(bp).  Both involve sqrt(3) and the
    Legendre-Gauss-Lobatto warp factor (hedge.quadrature and
    hedge.interpolation are not under src), so they are abstracted as the
    parameters b2e and warp into an arbitrary additive point type. -/
def triangle_equilateral_nodes {α : Type} [Add α] (order : ℕ)
    (b2e warp : List ℚ → α) : Option (List α) :=
  (equidistant_barycentric_nodes 2 order).map fun bps =>
    bps.map fun bp => b2e bp + warp bp

/-- PkSimplexDiscretization.unit_nodes for the triangle: equilateral_to_unit
    (an affine map with irrational entries, abstracted as e2u) applied to
    each equilateral node. -/
def triangle_unit_nodes {α : Type} [Add α] (order : ℕ)
    (b2e warp : List ℚ → α) (e2u : α → α) : Option (List α) :=
  (triangle_equilateral_nodes order b2e warp).map fun ns => ns.map e2u

/-- The tetrahedron face loop data: face vertex index lists in the order
    ABC, ABD, ACD, BCD documented in the TetrahedronDiscretization docstring
    (the geometry table itself lives in hedge.mesh.element, not under src),
    each paired with the opposite vertex index, computed in the source as the
    one vertex index not on the face. -/
def tet_loop_info : List (List ℕ × ℕ) :=
  [([0, 1, 2], 3), ([0, 1, 3], 2), ([0, 2, 3], 1), ([1, 2, 3], 0)]

/-- One face pass of TetrahedronDiscretization.equilateral_nodes: for each
    (barycentric point, current equilateral point) pair, extract the face
    barycentric coordinates, compute the clamped blend, and shift the point
    by blend times the warp displacement along the face directions.  The
    displacement (TriangleWarper output contracted with the orthonormal face
    directions, both irrational) is abstracted as warp_dir. -/
def tet_warp_pass {α : Type} [Add α] [SMul ℚ α] (alpha : ℚ)
    (warp_dir : List ℕ → List ℚ → α) (fvi : List ℕ) (opp : ℕ)
    (bary_points : List (List ℚ)) (equi_points : List α) : List α :=
  List.zipWith
    (fun bp ep =>
      let face_bp := fvi.map fun i => bp.getD i 0
      let blend := tet_face_blend alpha face_bp (bp.getD opp 0)
      ep + blend • warp_dir fvi face_bp)
    bary_points equi_points

/-- TetrahedronDiscretization.equilateral_nodes: start from the equilateral
    images of the equidistant barycentric nodes and fold the warp pass over
    the four faces, threading the shifted point list. -/
def tetrahedron_equilateral_nodes {α : Type} [Add α] [SMul ℚ α] (order : ℕ)
    (b2e : List ℚ → α) (warp_dir : List ℕ → List ℚ → α) : Option (List α) :=
  (equidistant_barycentric_nodes 3 order).map fun bary_points =>
    tet_loop_info.foldl
      (fun equi_points fo =>
        tet_warp_pass (tetrahedron_alpha order) warp_dir fo.1 fo.2
          bary_points equi_points)
      (bary_points.map b2e)

/-- PkSimplexDiscretization.unit_nodes for the tetrahedron. -/
def tetrahedron_unit_nodes {α : Type} [Add α] [SMul ℚ α] (order : ℕ)
    (b2e : List ℚ → α) (warp_dir : List ℕ → List ℚ → α) (e2u : α → α) :
    Option (List α) :=
  (tetrahedron_equilateral_nodes order b2e warp_dir).map fun ns => ns.map e2u

-- }}}

-- {{{ time step scaling (TetrahedronDiscretization.dt_geometric_factor)

/-- The element map data dt_geometric_factor reads: the (constant) Jacobian
    of the element map and the per-face Jacobians. -/
structure TetElementMap where
  jacobian : ℚ
  face_jacobians : List ℚ

/-- TetrahedronDiscretization.dt_geometric_factor: absolute Jacobian over
    the largest absolute face Jacobian, halved when the order is 1 or 2
    (none models the ValueError Python raises on an empty face list). -/
def dt_geometric_factor (order : ℕ) (el : TetElementMap) : Option ℚ :=
  (pymax (el.face_jacobians.map fun fj => |fj|)).map fun m =>
    let result := |el.jacobian| / m
    if order = 1 ∨ order = 2 then result / 2 else result

-- }}}

-- {{{ face matching (PkSimplexDiscretization.get_face_index_shuffle_*)

/-- The Python exception kinds surfacing in the embedded code paths. -/
inductive PyExc where
  | keyError : PyExc
  | faceVertexMismatch : PyExc
deriving DecidableEq

/-- The idx_normalize_map of get_face_index_shuffle_backend:
    dict((i_i, i) for i, i_i in enumerate(face_1_vertices)). -/
def idx_normalize_map (face_1_vertices : List ℕ) (v : ℕ) : Option ℕ :=
  enum_dict_get 0 face_1_vertices v

/-- The normalized_face_2_vertices tuple comprehension of
    get_face_index_shuffle_backend; none models the KeyError that the
    comprehension turns into FaceVertexMismatch. -/
def normalize_face_vertices (face_1_vertices face_2_vertices : List ℕ) :
    Option (List ℕ) :=
  option_map_list (idx_normalize_map face_1_vertices) face_2_vertices

/-- PkSimplexDiscretization.get_face_index_shuffle_backend: normalize
    face_2_vertices against face_1_vertices, raising FaceVertexMismatch when
    some vertex does not occur in face_1_vertices, then subscript the lookup
    map (an unprotected dict access: a missing key is a plain KeyError). -/
def get_face_index_shuffle_backend {α : Type}
    (face_1_vertices face_2_vertices : List ℕ)
    (lookup_map : List ℕ → Option α) : Except PyExc α :=
  match normalize_face_vertices face_1_vertices face_2_vertices with
  | none => .error .faceVertexMismatch
  | some normalized =>
    match lookup_map normalized with
    | some s => .ok s
    | none => .error .keyError

/-- PkSimplexDiscretization.get_face_index_shuffle_lookup_map: its keys are
    exactly the permutations of range(dimensions) produced by
    pytools.generate_unique_permutations, so a subscription succeeds iff the
    key is a permutation of range(dimensions).  The stored FaceIndexShuffle
    is represented by its vert_perm key; its idx_map component
    (nearest-node matching over floating-point face node coordinates) is not
    modelled and plays no role in which keys exist. -/
def get_face_index_shuffle_lookup_map (dimensions : ℕ) (vert_perm : List ℕ) :
    Option (List ℕ) :=
  if List.Perm vert_perm (List.range dimensions) then some vert_perm else none

/-- PkSimplexDiscretization.get_face_index_shuffle_to_match: the backend
    applied to the memoized lookup map of the discretization, whose dimension
    equals the length of a face vertex tuple. -/
def get_face_index_shuffle_to_match (dimensions : ℕ)
    (face_1_vertices face_2_vertices : List ℕ) : Except PyExc (List ℕ) :=
  get_face_index_shuffle_backend face_1_vertices face_2_vertices
    (get_face_index_shuffle_lookup_map dimensions)

-- }}}

-- {{{ constructors (IntervalDiscretization, TriangleDiscretization, TetrahedronDiscretization)

/-- The state stored by IntervalDiscretization.__init__. -/
structure IntervalDiscretizationState where
  order : ℤ
deriving DecidableEq

/-- IntervalDiscretization.__init__ stores the order and performs no
    validation; the Except return type records that no exception path exists
    in the constructor. -/
def intervalDiscretization_init (order : ℤ) :
    Except PyExc IntervalDiscretizationState :=
  .ok ⟨order⟩

/-- The state stored by TriangleDiscretization.__init__. -/
structure TriangleDiscretizationState where
  order : ℤ
  fancy_node_ordering : Bool
deriving DecidableEq

/-- TriangleDiscretization.__init__ stores the order and the node-ordering
    flag and performs no validation. -/
def triangleDiscretization_init (order : ℤ) (fancy_node_ordering : Bool) :
    Except PyExc TriangleDiscretizationState :=
  .ok ⟨order, fancy_node_ordering⟩

/-- The state stored by TetrahedronDiscretization.__init__. -/
structure TetrahedronDiscretizationState where
  order : ℤ
deriving DecidableEq

/-- TetrahedronDiscretization.__init__ stores the order and performs no
    validation. -/
def tetrahedronDiscretization_init (order : ℤ) :
    Except PyExc TetrahedronDiscretizationState :=
  .ok ⟨order⟩

-- }}}

-- {{{ face index lists (PkSimplexDiscretization.face_indices)

/-- IntervalDiscretization.node_tuples: the singleton tuples (i) for
    i in range(order + 1). -/
def interval_node_tuples (order : ℕ) : List (List ℕ) :=
  (List.range (order + 1)).map fun i => [i]

/-- IntervalDiscretization.faces_for_node_tuple: node (0) lies on face 0
    (and also on face 1 when the order is 0), node (order) lies on face 1,
    interior nodes lie on no face. -/
def interval_faces_for_node_tuple (order : ℕ) (node_idx : List ℕ) : List ℕ :=
  if node_idx = [0] then (if order = 0 then [0, 1] else [0])
  else if node_idx = [order] then [1]
  else []

/-- PkSimplexDiscretization.face_indices: start from dimensions + 1 empty
    face lists; for every node tuple of the enumeration, append its local
    node index (from the node_tuples dict, which always succeeds since the
    enumeration and node_tuples contain the same tuples) to each face it
    lies on. -/
def face_indices_build (dimensions order : ℕ) (node_tuples : List (List ℕ))
    (faces_for : List ℕ → List ℕ) : List (List ℕ) :=
  (gnitstam order dimensions).foldl
    (fun faces node_tup =>
      (faces_for node_tup).foldl
        (fun faces face_idx =>
          faces.set face_idx
            ((faces.getD face_idx []) ++
              [(enum_dict_get 0 node_tuples node_tup).getD 0]))
        faces)
    (List.replicate (dimensions + 1) [])

/-- PkSimplexDiscretization.face_indices for the interval. -/
def interval_face_indices (order : ℕ) : List (List ℕ) :=
  face_indices_build 1 order (interval_node_tuples order)
    (interval_faces_for_node_tuple order)

-- }}}

-- {{{ helper lemmas

theorem option_map_list_eq_none_iff (f : α → Option β) (l : List α) :
    option_map_list f l = none ↔ ∃ a ∈ l, f a = none := by
  induction l with
  | nil => simp [option_map_list]
  | cons a rest ih =>
    cases hfa : f a with
    | none => simp [option_map_list, hfa]
    | some b =>
      cases hrest : option_map_list f rest with
      | none =>
        simp only [option_map_list, hfa, hrest]
        simp only [hrest] at ih
        constructor
        · intro _
          obtain ⟨x, hx, hxn⟩ := ih.mp trivial
          exact ⟨x, by simp [hx], hxn⟩
        · intro _; trivial
      | some bs =>
        simp only [option_map_list, hfa, hrest]
        simp only [hrest] at ih
        constructor
        · intro h; cases h
        · rintro ⟨x, hx, hxn⟩
          rcases List.mem_cons.mp hx with h | h
          · rw [h] at hxn; rw [hfa] at hxn; cases hxn
          · exact absurd (ih.mpr ⟨x, h, hxn⟩) (by simp)

theorem option_map_list_eq_some_map (f : α → Option β) (dflt : β) (l : List α)
    (h : ∀ a ∈ l, (f a).isSome) :
    option_map_list f l = some (l.map fun a => (f a).getD dflt) := by
  induction l with
  | nil => rfl
  | cons a rest ih =>
    obtain ⟨b, hb⟩ := Option.isSome_iff_exists.mp (h a (by simp))
    have hrest := ih fun x hx => h x (by simp [hx])
    simp [option_map_list, hb, hrest]

theorem option_map_list_some_length (f : α → Option β) :
    ∀ (l : List α) (out : List β),
    option_map_list f l = some out → out.length = l.length := by
  intro l
  induction l with
  | nil => intro out h; simp [option_map_list] at h; simp [← h]
  | cons a rest ih =>
    intro out h
    cases hfa : f a with
    | none => simp [option_map_list, hfa] at h
    | some b =>
      cases hrest : option_map_list f rest with
      | none => simp [option_map_list, hfa, hrest] at h
      | some bs =>
        simp only [option_map_list, hfa, hrest] at h
        cases h
        simp [ih bs hrest]

theorem enum_dict_get_eq_none_iff [DecidableEq α] (v : α) :
    ∀ (base : ℕ) (l : List α), enum_dict_get base l v = none ↔ v ∉ l := by
  intro base l
  induction l generalizing base with
  | nil => simp [enum_dict_get]
  | cons x xs ih =>
    cases h : enum_dict_get (base + 1) xs v with
    | some j =>
      have hv : v ∈ xs := by
        by_contra hvn
        rw [(ih (base + 1)).mpr hvn] at h
        cases h
      simp [enum_dict_get, h, hv]
    | none =>
      have hvn : v ∉ xs := (ih (base + 1)).mp h
      by_cases hx : x = v
      · simp [enum_dict_get, h, hx]
      · simp [enum_dict_get, h, hx, hvn]
        exact fun heq => hx heq.symm

theorem enum_dict_get_nodup [DecidableEq α] :
    ∀ (l : List α), l.Nodup → ∀ (base i : ℕ) (h : i < l.length),
    enum_dict_get base l (l.get ⟨i, h⟩) = some (base + i) := by
  intro l
  induction l with
  | nil => intro _ base i h; cases h
  | cons x xs ih =>
    intro hnd base i h
    cases i with
    | zero =>
      have hx : x ∉ xs := (List.nodup_cons.mp hnd).1
      have hnone : enum_dict_get (base + 1) xs x =
          none := (enum_dict_get_eq_none_iff x (base + 1) xs).mpr hx
      simp [enum_dict_get, hnone]
    | succ j =>
      have hxs := (List.nodup_cons.mp hnd).2
      have hrec := ih hxs (base + 1) j (by simpa using h)
      simp only [List.get_cons_succ, enum_dict_get, hrec]
      congr 1
      omega

-- }}}

-- {{{ counting lemmas

theorem foldr_append_length (L : List ℕ) (g : ℕ → List (List ℕ)) :
    (L.foldr (fun i acc => g i ++ acc) []).length
      = (L.map fun i => (g i).length).sum := by
  induction L with
  | nil => rfl
  | cons x xs ih => simp [ih]

theorem sum_range_shifted_choose (d : ℕ) : ∀ n : ℕ,
    ((List.range (n + 1)).map fun i => (n - i + d).choose d).sum
      = (n + d + 1).choose (d + 1) := by
  intro n
  induction n with
  | zero => simp
  | succ m ih =>
    rw [List.range_succ_eq_map, List.map_cons, List.map_map, List.sum_cons]
    have hmap : (List.map ((fun i => (m + 1 - i + d).choose d) ∘ Nat.succ)
        (List.range (m + 1))).sum
        = ((List.range (m + 1)).map fun i => (m - i + d).choose d).sum := by
      congr 1
      apply List.map_congr_left
      intro i _
      simp [Function.comp, Nat.succ_sub_succ]
    rw [hmap, ih]
    have h1 : m + 1 - 0 + d = m + d + 1 := by omega
    rw [h1]
    have h2 : m + 1 + d + 1 = (m + d + 1) + 1 := by omega
    rw [h2, Nat.choose_succ_succ (m + d + 1) d]

theorem gnitstam_length : ∀ (d n : ℕ), (gnitstam n d).length = (n + d).choose d := by
  intro d
  induction d with
  | zero => intro n; simp [gnitstam]
  | succ d ih =>
    intro n
    show (gnitstam n (d + 1)).length = _
    rw [gnitstam,
      foldr_append_length (List.range (n + 1))
        (fun i => (gnitstam (n - i) d).map fun rest => i :: rest)]
    have hcong : ((List.range (n + 1)).map fun i =>
        ((gnitstam (n - i) d).map fun rest => i :: rest).length).sum
        = ((List.range (n + 1)).map fun i => (n - i + d).choose d).sum := by
      congr 1
      apply List.map_congr_left
      intro i _
      simp [ih]
    rw [hcong, sum_range_shifted_choose d n]
    congr 1

-- }}}

-- {{{ node count closed forms

theorem node_count_one (order : ℕ) : node_count 1 order = order + 1 := by
  have hr : List.range 1 = [0] := rfl
  rw [node_count, hr]
  simp

theorem node_count_two (order : ℕ) : node_count 2 order = (order + 2).choose 2 := by
  rw [Nat.choose_two_right]
  have hr : List.range 2 = [0, 1] := rfl
  rw [node_count, hr]
  have hf : Nat.factorial 2 = 2 := rfl
  rw [hf]
  congr 1
  have h1 : order + 2 - 1 = order + 1 := rfl
  rw [h1]
  simp only [List.map_cons, List.map_nil, List.prod_cons, List.prod_nil]
  ring

theorem node_count_three (order : ℕ) : node_count 3 order = (order + 3).choose 3 := by
  rw [Nat.choose_eq_descFactorial_div_factorial]
  have hr : List.range 3 = [0, 1, 2] := rfl
  rw [node_count, hr]
  congr 1

-- }}}

-- {{{ blend loop lemmas

theorem tet_blend_loop_all_divide (opp_bp : ℚ) :
    ∀ (l : List ℚ) (blend : ℚ),
    (∀ x ∈ l, clamp_eps < |x + (1 / 2) * opp_bp|) →
    tet_blend_loop blend opp_bp l
      = blend / (l.map fun x => x + (1 / 2) * opp_bp).prod := by
  intro l
  induction l with
  | nil => intro blend _; simp [tet_blend_loop]
  | cons x xs ih =>
    intro blend h
    rw [tet_blend_loop, if_pos (h x (by simp))]
    rw [ih _ fun y hy => h y (by simp [hy])]
    rw [List.map_cons, List.prod_cons, div_div]

theorem tet_blend_loop_clamp (opp_bp b : ℚ) :
    ∀ (pre post : List ℚ) (blend : ℚ),
    (∀ x ∈ pre, clamp_eps < |x + (1 / 2) * opp_bp|) →
    |b + (1 / 2) * opp_bp| ≤ clamp_eps →
    tet_blend_loop blend opp_bp (pre ++ b :: post) = 1 / 2 := by
  intro pre
  induction pre with
  | nil =>
    intro post blend _ hb
    rw [List.nil_append, tet_blend_loop, if_neg (not_lt.mpr hb)]
  | cons x xs ih =>
    intro post blend h hb
    rw [List.cons_append, tet_blend_loop, if_pos (h x (by simp))]
    exact ih post _ (fun y hy => h y (by simp [hy])) hb

-- }}}

-- {{{ node list length lemmas

theorem tet_warp_pass_length {α : Type} [Add α] [SMul ℚ α] (alpha : ℚ)
    (warp_dir : List ℕ → List ℚ → α) (fvi : List ℕ) (opp : ℕ)
    (bary_points : List (List ℚ)) (equi_points : List α) :
    (tet_warp_pass alpha warp_dir fvi opp bary_points equi_points).length
      = min bary_points.length equi_points.length := by
  simp [tet_warp_pass]

theorem tet_warp_fold_length {α : Type} [Add α] [SMul ℚ α] (alpha : ℚ)
    (warp_dir : List ℕ → List ℚ → α) (bary_points : List (List ℚ)) :
    ∀ (info : List (List ℕ × ℕ)) (equi_points : List α),
    equi_points.length = bary_points.length →
    (info.foldl
      (fun eps fo => tet_warp_pass alpha warp_dir fo.1 fo.2 bary_points eps)
      equi_points).length = bary_points.length := by
  intro info
  induction info with
  | nil => intro eps h; simpa using h
  | cons fo rest ih =>
    intro eps h
    rw [List.foldl_cons]
    exact ih _ (by rw [tet_warp_pass_length, h, min_self])

theorem equidistant_barycentric_nodes_some (dimensions order : ℕ)
    (h : 1 ≤ order) :
    ∃ bps, equidistant_barycentric_nodes dimensions order = some bps ∧
      bps.length = (gnitstam order dimensions).length := by
  have hq : (order : ℚ) ≠ 0 := by
    exact_mod_cast Nat.pos_iff_ne_zero.mp h
  have hall : ∀ indices ∈ gnitstam order dimensions,
      (((option_map_list (fun (i : ℕ) => pydiv (i : ℚ) (order : ℚ)) indices).map
        fun divided => (1 - divided.sum) :: divided)).isSome := by
    intro indices _
    have hinner : ∀ i ∈ indices, ((fun (i : ℕ) => pydiv (i : ℚ) (order : ℚ)) i).isSome := by
      intro i _
      simp [pydiv, hq]
    rw [option_map_list_eq_some_map _ 0 indices hinner]
    rfl
  refine ⟨_, option_map_list_eq_some_map _ [] (gnitstam order dimensions) hall, ?_⟩
  simp [equidistant_barycentric_nodes]

theorem triangle_unit_nodes_some_length {α : Type} [Add α] (order : ℕ)
    (h : 1 ≤ order) (b2e warp : List ℚ → α) (e2u : α → α) :
    ∃ ns, triangle_unit_nodes order b2e warp e2u = some ns ∧
      ns.length = node_count 2 order := by
  obtain ⟨bps, hbps, hlen⟩ := equidistant_barycentric_nodes_some 2 order h
  refine ⟨(bps.map fun bp => b2e bp + warp bp).map e2u, ?_, ?_⟩
  · rw [triangle_unit_nodes, triangle_equilateral_nodes, hbps]
    rfl
  · simp only [List.length_map, hlen, gnitstam_length, node_count_two]

theorem tetrahedron_unit_nodes_some_length {α : Type} [Add α] [SMul ℚ α]
    (order : ℕ) (h : 1 ≤ order) (b2e : List ℚ → α)
    (warp_dir : List ℕ → List ℚ → α) (e2u : α → α) :
    ∃ ns, tetrahedron_unit_nodes order b2e warp_dir e2u = some ns ∧
      ns.length = node_count 3 order := by
  obtain ⟨bps, hbps, hlen⟩ := equidistant_barycentric_nodes_some 3 order h
  refine ⟨(tet_loop_info.foldl
      (fun eps fo => tet_warp_pass (tetrahedron_alpha order) warp_dir fo.1 fo.2
        bps eps)
      (bps.map b2e)).map e2u, ?_, ?_⟩
  · rw [tetrahedron_unit_nodes, tetrahedron_equilateral_nodes, hbps]
    rfl
  · rw [List.length_map,
      tet_warp_fold_length (tetrahedron_alpha order) warp_dir bps tet_loop_info
        (bps.map b2e) (by simp),
      hlen, gnitstam_length, node_count_three]

-- }}}

-- {{{ face shuffle lemmas

theorem map_idx_normalize_eq_range (f1 : List ℕ) (hnd : f1.Nodup) :
    (f1.map fun v => (idx_normalize_map f1 v).getD 0) = List.range f1.length := by
  apply List.ext_getElem
  · simp
  · intro i h1 h2
    simp only [List.getElem_map, List.getElem_range]
    have hg := enum_dict_get_nodup f1 hnd 0 i (by simpa using h1)
    rw [List.get_eq_getElem] at hg
    simp [idx_normalize_map, hg]

theorem normalize_face_vertices_perm (f1 f2 : List ℕ) (hnd : f1.Nodup)
    (hp : List.Perm f2 f1) :
    ∃ nf2, normalize_face_vertices f1 f2 = some nf2 ∧
      List.Perm nf2 (List.range f1.length) := by
  have hall : ∀ v ∈ f2, (idx_normalize_map f1 v).isSome := by
    intro v hv
    have hvf1 : v ∈ f1 := hp.subset hv
    cases hcase : idx_normalize_map f1 v with
    | none =>
      exact absurd ((enum_dict_get_eq_none_iff v 0 f1).mp hcase) (by simp [hvf1])
    | some j => rfl
  refine ⟨f2.map fun v => (idx_normalize_map f1 v).getD 0,
    option_map_list_eq_some_map _ 0 f2 hall, ?_⟩
  have hmap := List.Perm.map (fun v => (idx_normalize_map f1 v).getD 0) hp
  rw [map_idx_normalize_eq_range f1 hnd] at hmap
  exact hmap

-- }}}

-- {{{ claim theorems

/-- C1: for every supported element kind (interval, triangle, tetrahedron)
    and every order (each of which instantiates one LDisData), the lifting
    matrix equals the product of the inverse mass matrix (itself vandermonde
    times vandermonde-transpose) with the multi-face mass matrix, exactly by
    construction. -/
theorem lifting_matrix_by_construction (d : LDisData) :
    lifting_matrix d = inverse_mass_matrix d * multi_face_mass_matrix d ∧
    inverse_mass_matrix d = d.vandermonde * d.vandermonde.transpose :=
  ⟨rfl, rfl⟩

/-- C8 counterexample: constructing a discretization with order -1 does not
    fail; each constructor returns a discretization object storing -1. -/
theorem discretization_init_negative_order_counterexample :
    intervalDiscretization_init (-1) = .ok ⟨-1⟩ ∧
    triangleDiscretization_init (-1) false = .ok ⟨-1, false⟩ ∧
    tetrahedronDiscretization_init (-1) = .ok ⟨-1⟩ :=
  ⟨rfl, rfl, rfl⟩

/-- C8 (amended): construction performs no validation at all: for every
    order, including negative ones, each constructor returns (never raises)
    a discretization object storing exactly the given order; unsupported
    orders surface only later, when derived quantities are computed. -/
theorem discretization_init_no_validation (order : ℤ) (fancy : Bool) :
    intervalDiscretization_init order = .ok ⟨order⟩ ∧
    triangleDiscretization_init order fancy = .ok ⟨order, fancy⟩ ∧
    tetrahedronDiscretization_init order = .ok ⟨order⟩ :=
  ⟨rfl, rfl, rfl⟩

/-- C9: in both generated kernel variants, is_lift selects the lifting
    matrix and an inverse-Jacobian texture fetch as the store multiplier,
    while not is_lift selects the multi-face mass matrix and the constant 1. -/
theorem kernel_is_lift_selection (d : LDisData) (result inv_jacobian : ℚ) :
    (fluxlocal_gpu_liftmat_mat true d = lifting_matrix d ∧
     fluxlocal_alt_gpu_lift_mat true d = lifting_matrix d ∧
     fluxlocal_inv_jac_multiplier true = .texInverseJacobians ∧
     fluxlocal_alt_inv_jac_multiplier true = .texInverseJacobians ∧
     fluxlocal_stored_flux true result inv_jacobian = result * inv_jacobian ∧
     fluxlocal_alt_stored_flux true result inv_jacobian = result * inv_jacobian) ∧
    (fluxlocal_gpu_liftmat_mat false d = multi_face_mass_matrix d ∧
     fluxlocal_alt_gpu_lift_mat false d = multi_face_mass_matrix d ∧
     fluxlocal_inv_jac_multiplier false = .constOne ∧
     fluxlocal_alt_inv_jac_multiplier false = .constOne ∧
     fluxlocal_stored_flux false result inv_jacobian = result * 1 ∧
     fluxlocal_alt_stored_flux false result inv_jacobian = result * 1) :=
  ⟨⟨rfl, rfl, rfl, rfl, rfl, rfl⟩, ⟨rfl, rfl, rfl, rfl, rfl, rfl⟩⟩

/-- C10: the order-0 interval discretization has exactly one node, located
    at coordinate 0.5 (which is not 0), unit_nodes agrees with nodes, and
    face_indices places that single node index 0 on both faces. -/
theorem interval_order_zero_node_and_faces :
    interval_nodes 0 = [[1 / 2]] ∧
    interval_unit_nodes 0 = interval_nodes 0 ∧
    (1 / 2 : ℚ) ≠ 0 ∧
    interval_face_indices 0 = [[0], [0]] := by
  refine ⟨rfl, rfl, by norm_num, by decide⟩

-- }}}

/-- C2 counterexample: at order 0 the triangle and tetrahedron node_count
    is 1, yet unit_nodes returns no node list at all for either kind: the
    equidistant barycentric construction divides the node tuple entries by
    the order and raises ZeroDivisionError. -/
theorem order_zero_unit_nodes_counterexample :
    node_count 2 0 = 1 ∧
    triangle_unit_nodes 0 (fun _ => (0 : ℚ)) (fun _ => 0) id = none ∧
    node_count 3 0 = 1 ∧
    tetrahedron_unit_nodes 0 (fun _ => (0 : ℚ)) (fun _ _ => 0) id = none := by
  have hinner2 : option_map_list
      (fun (i : ℕ) => pydiv (i : ℚ) (0 : ℚ)) [0, 0] = none := by
    refine (option_map_list_eq_none_iff _ _).mpr ?_
    exact ⟨0, by simp, by simp [pydiv]⟩
  have hinner3 : option_map_list
      (fun (i : ℕ) => pydiv (i : ℚ) (0 : ℚ)) [0, 0, 0] = none := by
    refine (option_map_list_eq_none_iff _ _).mpr ?_
    exact ⟨0, by simp, by simp [pydiv]⟩
  refine ⟨rfl, ?_, rfl, ?_⟩
  · have hgn : gnitstam 0 2 = [[0, 0]] := rfl
    have hnone : equidistant_barycentric_nodes 2 0 = none := by
      refine (option_map_list_eq_none_iff _ _).mpr ?_
      refine ⟨[0, 0], by rw [hgn]; exact List.mem_singleton.mpr rfl, ?_⟩
      simp only [Nat.cast_zero, hinner2]
      rfl
    rw [triangle_unit_nodes, triangle_equilateral_nodes, hnone]
    rfl
  · have hgn : gnitstam 0 3 = [[0, 0, 0]] := rfl
    have hnone : equidistant_barycentric_nodes 3 0 = none := by
      refine (option_map_list_eq_none_iff _ _).mpr ?_
      refine ⟨[0, 0, 0], by rw [hgn]; exact List.mem_singleton.mpr rfl, ?_⟩
      simp only [Nat.cast_zero, hinner3]
      rfl
    rw [tetrahedron_unit_nodes, tetrahedron_equilateral_nodes, hnone]
    rfl

/-- C2 (amended): node_count matches the closed-form binomial for each
    supported kind at every order; the interval node list has node_count
    entries at every order; and for the triangle and the tetrahedron the
    warped node list exists and has node_count entries at every order at
    least 1, while at order 0 the construction raises (see the
    counterexample). -/
theorem node_count_closed_form_and_lengths {α : Type} [Add α] [SMul ℚ α]
    (order : ℕ) (b2e warp : List ℚ → α) (e2u : α → α)
    (warp_dir : List ℕ → List ℚ → α) :
    (node_count 1 order = (order + 1).choose 1 ∧
     node_count 2 order = (order + 2).choose 2 ∧
     node_count 3 order = (order + 3).choose 3) ∧
    (interval_unit_nodes order).length = node_count 1 order ∧
    (1 ≤ order → ∃ ns, triangle_unit_nodes order b2e warp e2u = some ns ∧
      ns.length = node_count 2 order) ∧
    (1 ≤ order → ∃ ns, tetrahedron_unit_nodes order b2e warp_dir e2u = some ns ∧
      ns.length = node_count 3 order) := by
  refine ⟨⟨?_, node_count_two order, node_count_three order⟩, ?_, ?_, ?_⟩
  · rw [node_count_one, Nat.choose_one_right]
  · rw [node_count_one]
    cases order with
    | zero => rfl
    | succ n =>
      simp [interval_unit_nodes, interval_nodes, legendre_gauss_lobatto_points]
  · intro h; exact triangle_unit_nodes_some_length order h b2e warp e2u
  · intro h; exact tetrahedron_unit_nodes_some_length order h b2e warp_dir e2u

/-- C2 witness: at order 3 the triangle and tetrahedron node lists exist and
    have node_count many entries. -/
theorem node_count_lengths_witness :
    (∃ ns, triangle_unit_nodes 3 (fun _ => (0 : ℚ)) (fun _ => 0) id = some ns ∧
      ns.length = node_count 2 3) ∧
    (∃ ns, tetrahedron_unit_nodes 3 (fun _ => (0 : ℚ)) (fun _ _ => 0) id = some ns ∧
      ns.length = node_count 3 3) :=
  ⟨(node_count_closed_form_and_lengths 3 (fun _ => (0 : ℚ)) (fun _ => 0) id
      (fun _ _ => 0)).2.2.1 (by decide),
   (node_count_closed_form_and_lengths 3 (fun _ => (0 : ℚ)) (fun _ => 0) id
      (fun _ _ => 0)).2.2.2 (by decide)⟩

/-- C3: in the 3-D warped-node blend, when every one of the face
    denominators bp_i + 0.5 * bp_opp exceeds 1e-12 in absolute value the
    blend is the initial product divided by each denominator in turn, and at
    the first denominator within 1e-12 of zero the blend is instead exactly
    0.5 with no further division. -/
theorem tet_face_blend_clamp_spec (alpha opp_bp b : ℚ)
    (face_bp pre post : List ℚ) :
    ((∀ x ∈ face_bp, clamp_eps < |x + (1 / 2) * opp_bp|) →
      tet_face_blend alpha face_bp opp_bp
        = (face_bp.prod * (1 + alpha * opp_bp) ^ 2) /
            (face_bp.map fun x => x + (1 / 2) * opp_bp).prod) ∧
    ((∀ x ∈ pre, clamp_eps < |x + (1 / 2) * opp_bp|) →
      |b + (1 / 2) * opp_bp| ≤ clamp_eps →
      tet_face_blend alpha (pre ++ b :: post) opp_bp = 1 / 2) := by
  constructor
  · intro h
    exact tet_blend_loop_all_divide opp_bp face_bp _ h
  · intro h hb
    exact tet_blend_loop_clamp opp_bp b pre post _ h hb

/-- C3 witness: with all denominators far from zero the blend is the exact
    quotient (equal to 1 at this input); with a middle denominator equal to
    zero the blend is clamped to exactly 0.5. -/
theorem tet_face_blend_witness :
    tet_face_blend 0 [1, 1, 1] 0 = 1 ∧ tet_face_blend 0 [1, 0, 1] 0 = 1 / 2 := by
  constructor
  · have h := (tet_face_blend_clamp_spec 0 0 0 [1, 1, 1] [] []).1
      (by norm_num [clamp_eps])
    rw [h]
    norm_num
  · exact (tet_face_blend_clamp_spec 0 0 0 [1, 1, 1] [1] [1]).2
      (by norm_num [clamp_eps]) (by norm_num [clamp_eps])

/-- C4 counterexample: at order 16 (the first order beyond the 15-entry
    table) the tetrahedron alpha defaults to 1, not 5/3. -/
theorem tetrahedron_alpha_beyond_table_counterexample :
    tetrahedron_alpha 16 = 1 ∧ (1 : ℚ) ≠ 5 / 3 := by
  constructor
  · rfl
  · norm_num

/-- C4 (amended): for every order beyond the fixed 15-entry tables
    (order at least 16), the triangle warp-and-blend alpha defaults to 5/3
    while the tetrahedron alpha defaults to 1. -/
theorem alpha_beyond_table_default (order : ℕ) (h : 16 ≤ order) :
    triangle_alpha order = 5 / 3 ∧ tetrahedron_alpha order = 1 := by
  constructor
  · have hnone : pylist_get triangle_alpha_opt ((order : ℤ) - 1) = none := by
      have h0 : (0 : ℤ) ≤ (order : ℤ) - 1 := by omega
      simp only [pylist_get, if_pos h0]
      refine List.get?_eq_none.mpr ?_
      have hlen : triangle_alpha_opt.length = 15 := rfl
      rw [hlen]
      omega
    simp [triangle_alpha, hnone]
  · have hge : ¬ ((order : ℤ) - 1 < (tetrahedron_alpha_opt.length : ℤ)) := by
      have hlen : tetrahedron_alpha_opt.length = 15 := rfl
      rw [hlen]
      omega
    simp [tetrahedron_alpha, hge]

/-- C4 witness: at order 17 the defaults are 5/3 for the triangle and 1 for
    the tetrahedron. -/
theorem alpha_beyond_table_witness :
    triangle_alpha 17 = 5 / 3 ∧ tetrahedron_alpha 17 = 1 :=
  alpha_beyond_table_default 17 (by decide)

/-- C5: the tetrahedron dt_geometric_factor is the absolute Jacobian over
    the largest absolute face Jacobian, divided by exactly 2 when the order
    is 1 or 2, and unhalved for every other order. -/
theorem dt_geometric_factor_halving (order : ℕ) (el : TetElementMap) :
    ((order = 1 ∨ order = 2) →
      dt_geometric_factor order el
        = (pymax (el.face_jacobians.map fun fj => |fj|)).map
            fun m => |el.jacobian| / m / 2) ∧
    (¬(order = 1 ∨ order = 2) →
      dt_geometric_factor order el
        = (pymax (el.face_jacobians.map fun fj => |fj|)).map
            fun m => |el.jacobian| / m) := by
  constructor
  · intro h
    unfold dt_geometric_factor
    cases hm : pymax (el.face_jacobians.map fun fj => |fj|) with
    | none => rfl
    | some m =>
      show some (if order = 1 ∨ order = 2
          then |el.jacobian| / m / 2 else |el.jacobian| / m)
        = some (|el.jacobian| / m / 2)
      rw [if_pos h]
  · intro h
    unfold dt_geometric_factor
    cases hm : pymax (el.face_jacobians.map fun fj => |fj|) with
    | none => rfl
    | some m =>
      show some (if order = 1 ∨ order = 2
          then |el.jacobian| / m / 2 else |el.jacobian| / m)
        = some (|el.jacobian| / m)
      rw [if_neg h]

/-- C5 witness: for an element with Jacobian 6 and face Jacobians [-3], the
    factor is 6/3 halved to 1 at order 1, and the unhalved 2 at order 4. -/
theorem dt_geometric_factor_witness :
    dt_geometric_factor 1 ⟨6, [-3]⟩ = some 1 ∧
    dt_geometric_factor 4 ⟨6, [-3]⟩ = some 2 := by
  have habs : (([-3] : List ℚ).map fun fj => |fj|) = [3] := by norm_num
  constructor
  · rw [(dt_geometric_factor_halving 1 ⟨6, [-3]⟩).1 (Or.inl rfl), habs]
    show some (|(6 : ℚ)| / 3 / 2) = some 1
    norm_num
  · rw [(dt_geometric_factor_halving 4 ⟨6, [-3]⟩).2 (by decide), habs]
    show some (|(6 : ℚ)| / 3) = some 2
    norm_num

/-- C7 (amended): get_face_index_shuffle_to_match raises FaceVertexMismatch
    exactly when some vertex of face_2_vertices does not occur in
    face_1_vertices; and when face_2_vertices lists the (distinct) vertices
    of face_1_vertices, each exactly once, it returns a face-index shuffle.
    When every vertex of face_2_vertices merely occurs in face_1_vertices
    but with repetitions, the unprotected dict lookup raises a plain
    KeyError instead of returning a shuffle (see the counterexample). -/
theorem get_face_index_shuffle_spec (f1 f2 : List ℕ) :
    (get_face_index_shuffle_to_match f1.length f1 f2
        = .error .faceVertexMismatch ↔ ∃ v ∈ f2, v ∉ f1) ∧
    (f1.Nodup → List.Perm f2 f1 →
      ∃ s, get_face_index_shuffle_to_match f1.length f1 f2 = .ok s) := by
  constructor
  · cases hn : normalize_face_vertices f1 f2 with
    | none =>
      obtain ⟨v, hv, hvnone⟩ :=
        (option_map_list_eq_none_iff (idx_normalize_map f1) f2).mp hn
      simp only [get_face_index_shuffle_to_match,
        get_face_index_shuffle_backend, hn]
      constructor
      · intro _
        exact ⟨v, hv, (enum_dict_get_eq_none_iff v 0 f1).mp hvnone⟩
      · intro _; trivial
    | some nf2 =>
      have hno : ¬ ∃ v ∈ f2, v ∉ f1 := by
        rintro ⟨v, hv, hvn⟩
        have hcontra : normalize_face_vertices f1 f2 = none :=
          (option_map_list_eq_none_iff (idx_normalize_map f1) f2).mpr
            ⟨v, hv, (enum_dict_get_eq_none_iff v 0 f1).mpr hvn⟩
        rw [hcontra] at hn
        cases hn
      simp only [get_face_index_shuffle_to_match,
        get_face_index_shuffle_backend, hn]
      cases hl : get_face_index_shuffle_lookup_map f1.length nf2 with
      | some s =>
        constructor
        · intro hcontra; simp at hcontra
        · intro hx; exact absurd hx hno
      | none =>
        constructor
        · intro hcontra; simp at hcontra
        · intro hx; exact absurd hx hno
  · intro hnd hp
    obtain ⟨nf2, hsome, hperm⟩ := normalize_face_vertices_perm f1 f2 hnd hp
    refine ⟨nf2, ?_⟩
    simp only [get_face_index_shuffle_to_match,
      get_face_index_shuffle_backend, hsome,
      get_face_index_shuffle_lookup_map, if_pos hperm]

/-- C7 counterexample: with face_1_vertices (5, 7) and face_2_vertices
    (5, 5), every vertex of the second face occurs in the first, yet the
    shuffle lookup raises KeyError rather than returning a shuffle. -/
theorem get_face_index_shuffle_duplicate_counterexample :
    (∀ v ∈ ([5, 5] : List ℕ), v ∈ ([5, 7] : List ℕ)) ∧
    get_face_index_shuffle_to_match 2 [5, 7] [5, 5] = .error .keyError := by
  constructor
  · decide
  · rfl

/-- C7 witness: for the matching pair (5, 7) and (7, 5) a shuffle is
    returned, and for (5, 7) against (9, 5) the distinct FaceVertexMismatch
    error is raised. -/
theorem get_face_index_shuffle_witness :
    (∃ s, get_face_index_shuffle_to_match 2 [5, 7] [7, 5] = .ok s) ∧
    get_face_index_shuffle_to_match 2 [5, 7] [9, 5]
      = .error .faceVertexMismatch := by
  constructor
  · exact (get_face_index_shuffle_spec [5, 7] [7, 5]).2 (by decide) (by decide)
  · exact (get_face_index_shuffle_spec [5, 7] [9, 5]).1.mpr
      ⟨9, by decide, by decide⟩
